import Mathlib

/-!
Verification of the shellcaster core (src/types.rs, src/ui.rs,
src/ui/menu.rs).

Shallow embedding conventions:
* Rust `String`/`&str` values are modelled as `List Char` (Rust `char` =
  Unicode scalar value = Lean `Char`); the UTF-8 byte representation is
  modelled explicitly where the source manipulates byte offsets.
* `usize` subtraction is checked: an underflow (a debug-mode panic in the
  source) is modelled as `Option.none`.
* `i32`/`i64` values are modelled as `Int` (no operation in scope
  approaches the machine range); an `as usize` cast of a negative value
  yields a huge index, so an indexed lookup after such a cast is modelled
  as an out-of-range lookup returning `none`.
* Functions whose Rust counterpart can panic (`unwrap`, slice indexing,
  usize underflow) return `Option`; `none` models the panic.
* `ui/menu.rs` is written against a newer `LockVec` (an ID→entity map
  plus an ID order sequence) and a `Panel` rendering surface whose
  sources are not part of this snapshot; those two collaborators are
  modelled from the spec where needed, as flagged in doc comments.
-/

namespace Shellcaster

/-! ### UTF-8 model (types.rs, `StringUtils`)

`StringUtils::substring` walks `self.chars()` accumulating `c.len_utf8()`
into `byte_start`/`byte_end` and finally returns the byte slice
`&self[byte_start..byte_end]`.  We model the byte string of a `List Char`
explicitly, mirror the two accumulation loops, and relate the byte slice
to a character-level substring. -/

/-- UTF-8 encoding of a single Unicode scalar value, as a list of byte
values; mirrors the encoding Rust strings use (`char::len_utf8` is its
length). -/
def utf8Bytes (c : Char) : List Nat :=
  let n := c.toNat
  if n < 0x80 then [n]
  else if n < 0x800 then [0xC0 + n / 0x40, 0x80 + n % 0x40]
  else if n < 0x10000 then
    [0xE0 + n / 0x1000, 0x80 + (n / 0x40) % 0x40, 0x80 + n % 0x40]
  else
    [0xF0 + n / 0x40000, 0x80 + (n / 0x1000) % 0x40,
     0x80 + (n / 0x40) % 0x40, 0x80 + n % 0x40]

/-- The UTF-8 byte string backing a Rust `String` with character content
`s`. -/
def strBytes (s : List Char) : List Nat :=
  s.flatMap utf8Bytes

/-- Mirrors one accumulation loop of `StringUtils::substring` for `str`
(types.rs:254-261 and 264-271): walk at most `n` characters off the
iterator, summing `c.len_utf8()`; the loop also stops early when the
iterator is exhausted. -/
def takeBytesLen : List Char → Nat → Nat
  | _, 0 => 0
  | [], _ + 1 => 0
  | c :: cs, n + 1 => (utf8Bytes c).length + takeBytesLen cs n

/-- The `byte_start` computed by the first loop of `substring`. -/
def substringByteStart (s : List Char) (start : Nat) : Nat :=
  takeBytesLen s start

/-- The `byte_end` computed by the second loop of `substring` (the second
loop continues on the same iterator, i.e. on `s.drop start`). -/
def substringByteEnd (s : List Char) (start len : Nat) : Nat :=
  takeBytesLen s start + takeBytesLen (s.drop start) len

/-- The byte slice `&self[byte_start..byte_end]` returned by
`StringUtils::substring` (types.rs:272). -/
def substringBytes (s : List Char) (start len : Nat) : List Nat :=
  ((strBytes s).drop (substringByteStart s start)).take
    (substringByteEnd s start len - substringByteStart s start)

/-- Character-level reading of `StringUtils::substring`: the characters at
positions `start..start+len`, clamped to the end of the string.  The
theorem `substringBytes_eq_strBytes_substring` below proves that the byte
slice the source returns is exactly the UTF-8 encoding of this list. -/
def substring (s : List Char) (start len : Nat) : List Char :=
  (s.drop start).take len

/-! ### Entity types and title formatting (types.rs) -/

/-- Checked `usize` subtraction: `none` models the debug-mode panic on
underflow. -/
def usizeSub (a b : Nat) : Option Nat :=
  if b ≤ a then some (a - b) else none

/-- Rust's `format!("{:>width$}", s)`: right-justify `s` in at least
`width` columns, padding with spaces on the left. -/
def padLeftTo (width : Nat) (s : List Char) : List Char :=
  List.replicate (width - s.length) ' ' ++ s

/-- Zero-pad a rendered number on the left to at least `width` digits
(Rust `{:02}`-style; the sign-aware difference never triggers because a
negative rendering is already at least two characters wide). -/
def padZeros (width : Nat) (s : List Char) : List Char :=
  List.replicate (width - s.length) '0' ++ s

/-- Modelled from the spec: chrono `DateTime<Utc>` is an external
collaborator; only the calendar-date rendering `%F` of the publication
date is needed by the core, so a date is kept as year/month/day. -/
structure SDate where
  year : Nat
  month : Nat
  day : Nat
deriving DecidableEq, Repr

/-- The `pubdate.format("%F")` rendering used at types.rs:109-110:
`YYYY-MM-DD`, zero-padded. -/
def formatF (d : SDate) : List Char :=
  padZeros 4 (Nat.repr d.year).data ++ '-' ::
    (padZeros 2 (Nat.repr d.month).data ++ '-' :: padZeros 2 (Nat.repr d.day).data)

/-- `Episode` (types.rs:67-77). -/
structure Episode where
  id : Option Int
  podId : Option Int
  title : List Char
  url : List Char
  description : List Char
  pubdate : Option SDate
  duration : Option Int
  path : Option (List Char)
  played : Bool
deriving DecidableEq, Repr

/-- `Episode::format_duration` (types.rs:81-93): seconds to `HH:MM:SS`
with `{:02}` fields, or the `--:--:--` placeholder.  Rust `i64` division
truncates toward zero, hence `Int.tdiv`. -/
def formatDuration (duration : Option Int) : List Char :=
  match duration with
  | some dur =>
    let hours := Int.tdiv dur 3600
    let secs1 := dur - hours * 3600
    let minutes := Int.tdiv secs1 60
    let secs2 := secs1 - minutes * 60
    padZeros 2 (Int.repr hours).data ++ ':' ::
      (padZeros 2 (Int.repr minutes).data ++ ':' :: padZeros 2 (Int.repr secs2).data)
  | none => "--:--:--".data

/-- `Podcast` (types.rs:20-30); its `episodes` sub-store is the plain
entity list guarded by the lock. -/
structure Podcast where
  id : Option Int
  title : List Char
  url : List Char
  description : Option (List Char)
  author : Option (List Char)
  explicit : Option Bool
  lastChecked : SDate
  episodes : List Episode
  anyUnplayed : Bool
deriving DecidableEq, Repr

/-- `Menuable::is_played` for `Episode` (types.rs:126-128). -/
def episodeIsPlayed (ep : Episode) : Bool :=
  ep.played

/-- `Menuable::is_played` for `Podcast` (types.rs:57-59). -/
def podcastIsPlayed (pod : Podcast) : Bool :=
  !pod.anyUnplayed

/-- `Episode::get_title` (types.rs:98-124).  The two width thresholds
`EPISODE_PUBDATE_LENGTH` and `EPISODE_DURATION_LENGTH` live outside this
snapshot (referenced as `super::…`), so they are parameters here.  All
`usize` subtractions of the source are checked (`none` = panic); note the
source computes the pad width from the character count of the *original*
`out`, not of the re-truncated copy. -/
def episodeGetTitle (pubdateLength durationLength : Nat) (ep : Episode)
    (length : Nat) : Option (List Char) := do
  let out ← match ep.path with
    | some _ => do
      let k ← usizeSub length 4
      pure ("[D] ".data ++ substring ep.title 0 k)
    | none => pure (substring ep.title 0 length)
  if pubdateLength < length then
    let dur := formatDuration ep.duration
    match ep.pubdate with
    | some pubdate => do
      let pd := formatF pubdate
      let addedLen := dur.length + 3 + (pd.length + 3)
      let cut ← usizeSub length addedLen
      let w1 ← usizeSub length out.length
      let w2 ← usizeSub w1 addedLen
      pure (substring out 0 cut ++ padLeftTo (w2 + 2) "(".data ++ pd ++
        ") [".data ++ dur ++ "]".data)
    | none => do
      let addedLen := dur.length + 3
      let cut ← usizeSub length addedLen
      let w1 ← usizeSub length out.length
      let w2 ← usizeSub w1 addedLen
      pure (substring out 0 cut ++ padLeftTo (w2 + 2) "[".data ++ dur ++ "]".data)
  else if durationLength < length then
    let dur := formatDuration ep.duration
    let addedLen := dur.length + 3
    let cut ← usizeSub length addedLen
    let w1 ← usizeSub length out.length
    let w2 ← usizeSub w1 addedLen
    pure (substring out 0 cut ++ padLeftTo (w2 + 2) "[".data ++ dur ++ "]".data)
  else
    pure out

/-- `Podcast::get_title` (types.rs:34-55).  The width threshold
`PODCAST_UNPLAYED_TOTALS_LENGTH` lives outside this snapshot, so it is a
parameter.  The local called `unplayed` sums `ep.is_played() as i32`,
exactly as the source does. -/
def podcastGetTitle (unplayedTotalsLength : Nat) (pod : Podcast)
    (length : Nat) : Option (List Char) := do
  let out := substring pod.title 0 length
  if unplayedTotalsLength < length then
    let unplayed := (Nat.repr (pod.episodes.foldl
      (fun acc ep => acc + (if episodeIsPlayed ep then 1 else 0)) 0)).data
    let total := (Nat.repr pod.episodes.length).data
    let addedLen := unplayed.length + total.length + 4
    let cut ← usizeSub length addedLen
    let out2 := substring out 0 cut
    let w1 ← usizeSub length out2.length
    let w2 ← usizeSub w1 addedLen
    pure (out2 ++ padLeftTo (w2 + 2) "(".data ++ unplayed ++ "/".data ++
      total ++ ")".data)
  else
    pure out

/-! ### The Vec-backed `LockVec` (types.rs:138-226) -/

/-- `LockVec::replace` (types.rs:158-166): replaces the entity at
`index`, but only when `index > 0 && index < len`; otherwise returns the
`Invalid index` error. -/
def lockVecReplace {T : Type} (data : List T) (index : Nat) (t : T) :
    Except String (List T) :=
  if 0 < index ∧ index < data.length then .ok (data.set index t)
  else .error "Invalid index"

/-- `Iterator::position`: index of the first element satisfying `p`. -/
def iterPosition {T : Type} (p : T → Bool) : List T → Option Nat
  | [] => none
  | a :: rest => if p a then some 0 else (iterPosition p rest).map (· + 1)

/-- `LockVec::<Podcast>::clone_podcast` (types.rs:180-186): copy of the
entity at `index`, or `None`. -/
def clonePodcast (data : List Podcast) (index : Nat) : Option Podcast :=
  data.get? index

/-- `LockVec::<Episode>::clone_episode` (types.rs:212-218). -/
def cloneEpisode (data : List Episode) (index : Nat) : Option Episode :=
  data.get? index

/-- `LockVec::<Podcast>::id_to_index` (types.rs:202-205): linear scan for
the entity whose `id` field is `Some(id)`. -/
def podIdToIndex (data : List Podcast) (id : Int) : Option Nat :=
  iterPosition (fun val => decide (val.id = some id)) data

/-- `LockVec::<Episode>::id_to_index` (types.rs:222-225). -/
def epIdToIndex (data : List Episode) (id : Int) : Option Nat :=
  iterPosition (fun val => decide (val.id = some id)) data

/-! ### The menu state machine (ui/menu.rs)

State components of `Menu<T>` that the claims are about: the panel row
count `n_row` (`Panel::get_rows()` — the `Panel` is not part of this
snapshot; modelled from the spec as the viewport size accessor),
`start_row`, `top_row` and `selected`.  The store behind the menu enters
only through its length `L` (`LockVec::len`) and through positional
lookups (`LockVec::map_single_by_index`, modelled from the spec as
"project over one position: the function's result or not-found"). -/

/-- The cursor/window state of `Menu<T>` (ui/menu.rs:27-36). -/
structure MenuSt where
  nRow : Int
  startRow : Int
  topRow : Int
  selected : Int
deriving DecidableEq, Repr

/-- `Menu::get_menu_idx` (ui/menu.rs:277-279): unchecked translation of a
screen row to a store index. -/
def getMenuIdx (st : MenuSt) (screenY : Int) : Int :=
  st.topRow + screenY - st.startRow

/-- `LockVec::map_single_by_index` applied to `|el| el.is_played()`,
over a store summarized by its played flags.  Modelled from the spec:
"project over one position: returns the function's result or not-found".
A negative index (from an `as usize` cast of a negative `i32`) is out of
range. -/
def mapSingleByIndex (items : List Bool) (idx : Int) : Option Bool :=
  if 0 ≤ idx then items.get? idx.toNat else none

/-- `abs_bottom = min(n_row, len as i32 + start_row - 1)` of `Menu::scroll`
(ui/menu.rs:142), with `min` spelled as its comparison. -/
def absBottom (L : Nat) (st : MenuSt) : Int :=
  if st.nRow ≤ (L : Int) + st.startRow - 1 then st.nRow
  else (L : Int) + st.startRow - 1

/-- The clamped cursor of `Menu::scroll` (ui/menu.rs:137-145): move by
`lines`, then clamp at `abs_bottom`. -/
def scrollClamp (L : Nat) (lines : Int) (st : MenuSt) : Int :=
  if absBottom L st < st.selected + lines then absBottom L st
  else st.selected + lines

/-- The state transition of `Menu::scroll` (ui/menu.rs:158-195) together
with the adjusted `old_selected` (second component): scroll down moves
`top_row` only when the entering item exists, scroll up only when
`top_row - 1` is a valid index. -/
def scrollCore (L : Nat) (lines : Int) (st : MenuSt) : MenuSt × Int :=
  if st.nRow - 1 < scrollClamp L lines st then
    if 0 ≤ st.topRow + st.nRow ∧ st.topRow + st.nRow < (L : Int) then
      ({ st with selected := st.nRow - 1, topRow := st.topRow + 1 }, st.selected - 1)
    else
      ({ st with selected := st.nRow - 1 }, st.selected)
  else if scrollClamp L lines st < st.startRow then
    if 0 ≤ st.topRow - 1 ∧ st.topRow - 1 < (L : Int) then
      ({ st with selected := st.startRow, topRow := st.topRow - 1 }, st.selected + 1)
    else
      ({ st with selected := st.startRow }, st.selected)
  else
    ({ st with selected := scrollClamp L lines st }, st.selected)

/-- `Menu::scroll` (ui/menu.rs:122-212): early return on an empty store;
otherwise the state transition of `scrollCore` followed by the two
`apply_color_type` calls, whose `map_single_by_index(..).unwrap()` panics
(`none`) when `top_row + old_selected - start_row` or
`top_row + selected - start_row` is not a valid store index. -/
def menuScroll (L : Nat) (lines : Int) (st : MenuSt) : Option MenuSt :=
  if L = 0 then some st
  else
    if (0 ≤ (scrollCore L lines st).1.topRow + (scrollCore L lines st).2 - st.startRow ∧
        (scrollCore L lines st).1.topRow + (scrollCore L lines st).2 - st.startRow < (L : Int)) ∧
       (0 ≤ (scrollCore L lines st).1.topRow + (scrollCore L lines st).1.selected - st.startRow ∧
        (scrollCore L lines st).1.topRow + (scrollCore L lines st).1.selected - st.startRow < (L : Int))
    then some (scrollCore L lines st).1
    else none

/-- `Menu::resize` (ui/menu.rs:260-270): adopt the new panel row count;
if the cursor fell off the bottom, advance `top_row` so the same absolute
entity remains the last visible row. -/
def menuResize (nRowNew : Int) (st : MenuSt) : MenuSt :=
  if nRowNew - 1 < st.selected then
    { st with nRow := nRowNew,
              topRow := st.topRow + st.selected - (nRowNew - 1),
              selected := nRowNew - 1 }
  else
    { st with nRow := nRowNew }

/-- The cursor adjustment of `Menu::update_items` (ui/menu.rs:60-74):
pull `selected` up to `start_row`, then, when the store is non-empty and
the selected absolute index ran past the new length, pull `selected` back
so the absolute index is in range again.  (The `as usize as i32` cast
chain of the source is the identity for the nonnegative `top_row` states
the claims quantify over.) -/
def menuUpdateItems (L : Nat) (st : MenuSt) : MenuSt :=
  let sel0 := if st.selected < st.startRow then st.startRow else st.selected
  if L = 0 then { st with selected := sel0 }
  else
    if (L : Int) ≤ st.topRow + sel0 - st.startRow then
      { st with selected := sel0 - (st.topRow + sel0 - st.startRow - (L : Int)) - 1 }
    else
      { st with selected := sel0 }

/-- The color palettes of ui.rs/ui/menu.rs. -/
inductive ColorTy
  | Normal
  | Highlighted
  | HighlightedActive
deriving DecidableEq, Repr

/-- `Menu::activate` (ui/menu.rs:248-257): looks up the played flag at
the cursor's store index and, if present, repaints that row in the
active-highlight palette; the painted row and its attributes are the
observable effect.  No lookup, no paint, no fault. -/
def menuActivate (items : List Bool) (st : MenuSt) : Option (Int × Bool × ColorTy) :=
  (mapSingleByIndex items (getMenuIdx st st.selected)).map
    (fun played => (st.selected, played, ColorTy.HighlightedActive))

/-- `Menu::highlight_selected` (ui/menu.rs:231-244). -/
def menuHighlightSelected (items : List Bool) (st : MenuSt) (activeMenu : Bool) :
    Option (Int × Bool × ColorTy) :=
  (mapSingleByIndex items (getMenuIdx st st.selected)).map
    (fun played => (st.selected, played,
      if activeMenu then ColorTy.HighlightedActive else ColorTy.Highlighted))

/-- `Menu::<Podcast>::deactivate` (ui/menu.rs:300-309). -/
def menuDeactivatePodcast (items : List Bool) (st : MenuSt) : Option (Int × Bool × ColorTy) :=
  (mapSingleByIndex items (getMenuIdx st st.selected)).map
    (fun played => (st.selected, played, ColorTy.Highlighted))

/-- `Menu::<Episode>::deactivate` (ui/menu.rs:312-324). -/
def menuDeactivateEpisode (items : List Bool) (st : MenuSt) : Option (Int × Bool × ColorTy) :=
  (mapSingleByIndex items (getMenuIdx st st.selected)).map
    (fun played => (st.selected, played, ColorTy.Normal))

/-- One user-visible cursor operation on a menu. -/
inductive MenuOp
  | scroll (lines : Int)
  | resize (nRow : Int)
deriving DecidableEq, Repr

/-- Run a sequence of scroll/resize calls; a panic in any step aborts the
run with `none`. -/
def runOps (L : Nat) : List MenuOp → MenuSt → Option MenuSt
  | [], st => some st
  | MenuOp.scroll d :: rest, st => (menuScroll L d st).bind (runOps L rest)
  | MenuOp.resize r :: rest, st => runOps L rest (menuResize r st)

/-- `ops` never grows the viewport: every resize target keeps at least
`s + 1` rows (sane geometry below the header) and is at most the current
row count `n`. -/
def noGrowOps (s : Int) : Int → List MenuOp → Bool
  | _, [] => true
  | n, MenuOp.scroll _ :: rest => noGrowOps s n rest
  | n, MenuOp.resize r :: rest => decide (s + 1 ≤ r) && decide (r ≤ n) && noGrowOps s r rest

/-- Iterated single-step scrolling. -/
def iterScroll (L : Nat) (lines : Int) : Nat → MenuSt → Option MenuSt
  | 0, st => some st
  | n + 1, st => (menuScroll L lines st).bind (iterScroll L lines n)

/-- The windowing invariant of §4.3 of the spec: the cursor sits between
`start_row` and the last panel row, the selected absolute index
`top_row + (selected - start_row)` is a valid store index, and `top_row`
lies in `[0, max(0, length - visible_rows)]` where `visible_rows` is the
number of rows available for list content, `n_row - start_row`.  (The
last conjunct states the `max` bound equivalently, given `0 ≤ top_row`,
as a disjunction.) -/
def validM (L : Nat) (st : MenuSt) : Prop :=
  0 ≤ st.startRow ∧ st.startRow + 1 ≤ st.nRow ∧
  st.startRow ≤ st.selected ∧ st.selected ≤ st.nRow - 1 ∧
  0 ≤ st.topRow ∧ st.topRow + st.selected - st.startRow ≤ (L : Int) - 1 ∧
  (st.topRow = 0 ∨ st.topRow + (st.nRow - st.startRow) ≤ (L : Int))

instance validMDecidable (L : Nat) (st : MenuSt) : Decidable (validM L st) := by
  unfold validM
  infer_instance

/-! ### The Vec-backed menu (ui.rs:636-841)

The older `Menu` in ui.rs has no `start_row`/header; its `update_items`
(ui.rs:687-718) sets the sentinel `selected = -1` on an empty store, and
its `scroll` (ui.rs:726-798) returns early at the sentinel and otherwise
performs the same transition as ui/menu.rs with `start_row = 0` (the
`(len - 1) as i32` at ui.rs:740 underflows and panics on an empty list,
which the sentinel guard prevents). -/

/-- State of the ui.rs `Menu`. -/
structure UiMenuSt where
  nRow : Int
  topRow : Int
  selected : Int
deriving DecidableEq, Repr

/-- The cursor adjustment of ui.rs `Menu::update_items` (ui.rs:687-696):
sentinel `-1` on an empty store, else promote the sentinel to row 0. -/
def uiUpdateItems (L : Nat) (st : UiMenuSt) : UiMenuSt :=
  if L = 0 then { st with selected := -1 }
  else if st.selected = -1 then { st with selected := 0 }
  else st

/-- ui.rs `Menu::scroll` (ui.rs:726-798). -/
def uiScroll (L : Nat) (lines : Int) (st : UiMenuSt) : Option UiMenuSt :=
  if st.selected = -1 then some st
  else if L = 0 then none
  else
    (menuScroll L lines ⟨st.nRow, 0, st.topRow, st.selected⟩).map
      (fun m => ⟨m.nRow, m.topRow, m.selected⟩)

/-! ### The download-selection menu (ui/menu.rs:327-377)

`Menu<NewEpisode>` works against the newer map+order `LockVec` whose
source is not in this snapshot.  Modelled from the spec (§4.1): the store
is an ID→entity mapping together with an ordered sequence of IDs; the
order sequence contains exactly the ID set of the mapping.  `NewEpisode`
itself is also not in this snapshot; modelled from the spec (§3): a list
variant of the item entity carrying a selected-for-action flag. -/

/-- Modelled from the spec: the fields of `NewEpisode` the selection
logic touches. -/
structure NewEpisode where
  title : List Char
  selected : Bool
deriving DecidableEq, Repr

/-- Modelled from the spec: the ID→entity mapping of the newer `LockVec`,
as an association list keyed by episode ID. -/
def neLookup : List (Int × NewEpisode) → Int → Option NewEpisode
  | [], _ => none
  | (k, e) :: rest, id => if id = k then some e else neLookup rest id

/-- Write the selected-for-action flag of the entity stored under `id`
(the mutation performed through the occupied map entry at
ui/menu.rs:364-369). -/
def neSetSelected (m : List (Int × NewEpisode)) (id : Int) (v : Bool) :
    List (Int × NewEpisode) :=
  m.map (fun p => if p.1 = id then (p.1, { p.2 with selected := v }) else p)

/-- One iteration of the `change_item_selections` loop (ui/menu.rs:362-373):
resolve the menu index through the order sequence; on an occupied map
entry, set the flag to `selection` (or flip it when `selection` is
`None`) and record the change. -/
def changeStep (order : List Int) (selection : Option Bool)
    (acc : List (Int × NewEpisode) × Bool) (idx : Nat) :
    List (Int × NewEpisode) × Bool :=
  match order.get? idx with
  | some id =>
    match neLookup acc.1 id with
    | some ep =>
      (neSetSelected acc.1 id
        (match selection with
         | some sel => sel
         | none => !ep.selected), true)
    | none => acc
  | none => acc

/-- `Menu::<NewEpisode>::change_item_selections` (ui/menu.rs:358-376):
walk the menu indexes, updating the store and the changed flag. -/
def changeItemSelections (order : List Int) (indexes : List Nat)
    (selection : Option Bool) (m : List (Int × NewEpisode)) :
    List (Int × NewEpisode) × Bool :=
  indexes.foldl (changeStep order selection) (m, false)

/-- `LockVec::map` applied to `|ep| ep.selected` (ui/menu.rs:344).
Modelled from the spec: project every entity, in store order. -/
def lockVecMapSelected (order : List Int) (m : List (Int × NewEpisode)) : List Bool :=
  order.filterMap (fun id => (neLookup m id).map NewEpisode.selected)

/-- The unanimity test of `select_all_items` (ui/menu.rs:344). -/
def allSelectedFlag (order : List Int) (m : List (Int × NewEpisode)) : Bool :=
  (lockVecMapSelected order m).all (fun x => x)

/-- `Menu::<NewEpisode>::select_all_items` (ui/menu.rs:343-351): if every
entity already has the flag set, clear all; otherwise set all. -/
def selectAllItems (order : List Int) (m : List (Int × NewEpisode)) :
    List (Int × NewEpisode) × Bool :=
  changeItemSelections order (List.range order.length)
    (some (!allSelectedFlag order m)) m

/-! ## Theorems -/

theorem takeBytesLen_eq (s : List Char) (n : Nat) :
    takeBytesLen s n = (strBytes (s.take n)).length := by
  induction s generalizing n with
  | nil => cases n <;> simp [takeBytesLen, strBytes]
  | cons c cs ih =>
    cases n with
    | zero => simp [takeBytesLen, strBytes]
    | succ m => simp [takeBytesLen, strBytes, ih]

theorem strBytes_append (a b : List Char) :
    strBytes (a ++ b) = strBytes a ++ strBytes b := by
  simp [strBytes]

theorem strBytes_split_start (s : List Char) (start : Nat) :
    strBytes s = strBytes (s.take start) ++ strBytes (s.drop start) := by
  conv_lhs => rw [← List.take_append_drop start s]
  rw [strBytes_append]

/-- The byte slice returned by `substring` is exactly the UTF-8 encoding
of the character-level substring: the accumulated offsets always land on
character boundaries and never split a multi-byte character. -/
theorem substringBytes_eq_strBytes_substring (s : List Char) (start len : Nat) :
    substringBytes s start len = strBytes (substring s start len) := by
  simp only [substringBytes, substringByteEnd, substringByteStart]
  rw [Nat.add_sub_cancel_left,
    takeBytesLen_eq s start, takeBytesLen_eq (s.drop start) len,
    strBytes_split_start s start, List.drop_left,
    strBytes_split_start (s.drop start) len, List.take_left, substring]

/-- The byte offsets computed by `substring` are always a valid slice
range of the backing byte string: `byte_start ≤ byte_end ≤ length`, so the
slice `&self[byte_start..byte_end]` never panics. -/
theorem substring_offsets_valid (s : List Char) (start len : Nat) :
    substringByteStart s start ≤ substringByteEnd s start len ∧
      substringByteEnd s start len ≤ (strBytes s).length := by
  constructor
  · exact Nat.le_add_right _ _
  · simp only [substringByteEnd, substringByteStart]
    rw [takeBytesLen_eq s start,
      takeBytesLen_eq (s.drop start) len, strBytes_split_start s start,
      strBytes_split_start (s.drop start) len]
    simp

/-- One `scroll` state transition preserves the windowing invariant, keeps
the geometry fields, and keeps the old selected absolute index: the screen
row `old_selected` is adjusted by the same amount `top_row` moves. -/
theorem scrollCore_spec (L : Nat) (lines : Int) (st : MenuSt) (hv : validM L st) :
    (scrollCore L lines st).1.nRow = st.nRow ∧
    (scrollCore L lines st).1.startRow = st.startRow ∧
    (scrollCore L lines st).1.topRow + (scrollCore L lines st).2 =
      st.topRow + st.selected ∧
    validM L (scrollCore L lines st).1 := by
  obtain ⟨nr, sr, tr, sl⟩ := st
  simp only [validM] at hv ⊢
  obtain ⟨h1, h2, h3, h4, h5, h6, h7⟩ := hv
  simp only [scrollCore, scrollClamp, absBottom]
  split_ifs with hA hB hC hD hE hF hG hH hI hJ hK hL2 <;>
    simp only [true_and, and_true] <;> omega

/-- On a valid state over a non-empty store, `Menu::scroll` never panics:
both `apply_color_type` lookups succeed, and the resulting state is the
`scrollCore` transition and is valid again. -/
theorem menuScroll_some_valid (L : Nat) (lines : Int) (st : MenuSt)
    (hL : 1 ≤ L) (hv : validM L st) :
    menuScroll L lines st = some (scrollCore L lines st).1 ∧
      validM L (scrollCore L lines st).1 ∧
      (scrollCore L lines st).1.nRow = st.nRow ∧
      (scrollCore L lines st).1.startRow = st.startRow := by
  obtain ⟨e1, e2, e3, hvq⟩ := scrollCore_spec L lines st hv
  have habs1 : 0 ≤ st.topRow + st.selected - st.startRow ∧
      st.topRow + st.selected - st.startRow ≤ (L : Int) - 1 := by
    obtain ⟨h1, h2, h3, h4, h5, h6, h7⟩ := hv
    omega
  have habs2 : 0 ≤ (scrollCore L lines st).1.topRow +
      (scrollCore L lines st).1.selected - (scrollCore L lines st).1.startRow ∧
      (scrollCore L lines st).1.topRow + (scrollCore L lines st).1.selected -
        (scrollCore L lines st).1.startRow ≤ (L : Int) - 1 := by
    obtain ⟨g1, g2, g3, g4, g5, g6, g7⟩ := hvq
    omega
  refine ⟨?_, hvq, e1, e2⟩
  unfold menuScroll
  rw [if_neg (by omega : ¬ L = 0), if_pos ?_]
  constructor
  · constructor <;> omega
  · rw [e2] at habs2
    constructor <;> omega

/-- `Menu::resize` preserves the windowing invariant whenever the new row
count is sane (strictly below-header rows exist) and does not grow the
viewport. -/
theorem menuResize_valid (L : Nat) (r : Int) (st : MenuSt) (hv : validM L st)
    (hs : st.startRow + 1 ≤ r) (hng : r ≤ st.nRow) :
    validM L (menuResize r st) ∧ (menuResize r st).nRow = r ∧
      (menuResize r st).startRow = st.startRow := by
  obtain ⟨nr, sr, tr, sl⟩ := st
  simp only [] at hs hng
  simp only [validM] at hv ⊢
  obtain ⟨h1, h2, h3, h4, h5, h6, h7⟩ := hv
  simp only [menuResize]
  split_ifs with hA <;> simp only [true_and, and_true] <;> omega

/-- Any sequence of scrolls and non-growing resizes, run from a valid
state over a non-empty store, completes without a panic and ends in a
valid state with the same `start_row`. -/
theorem runOps_valid (L : Nat) (hL : 1 ≤ L) :
    ∀ (ops : List MenuOp) (st : MenuSt), validM L st →
      noGrowOps st.startRow st.nRow ops = true →
      ∃ st2, runOps L ops st = some st2 ∧ validM L st2 ∧
        st2.startRow = st.startRow := by
  intro ops
  induction ops with
  | nil => exact fun st hv _ => ⟨st, rfl, hv, rfl⟩
  | cons op rest ih =>
    intro st hv hng
    cases op with
    | scroll d =>
      obtain ⟨hsome, hv2, hnr, hsr⟩ := menuScroll_some_valid L d st hL hv
      have hng2 : noGrowOps (scrollCore L d st).1.startRow
          (scrollCore L d st).1.nRow rest = true := by
        rw [hnr, hsr]
        exact hng
      obtain ⟨st2, hrun, hv3, hsr2⟩ := ih (scrollCore L d st).1 hv2 hng2
      refine ⟨st2, ?_, hv3, by rw [hsr2, hsr]⟩
      simp [runOps, hsome, hrun]
    | resize r =>
      have hng' : st.startRow + 1 ≤ r ∧ r ≤ st.nRow ∧
          noGrowOps st.startRow r rest = true := by
        simpa [noGrowOps, Bool.and_eq_true, decide_eq_true_eq, and_assoc] using hng
      obtain ⟨hr1, hr2, hng2⟩ := hng'
      obtain ⟨hv2, hnr, hsr⟩ := menuResize_valid L r st hv hr1 hr2
      have hng3 : noGrowOps (menuResize r st).startRow
          (menuResize r st).nRow rest = true := by
        rw [hnr, hsr]
        exact hng2
      obtain ⟨st2, hrun, hv3, hsr2⟩ := ih (menuResize r st) hv2 hng3
      refine ⟨st2, ?_, hv3, by rw [hsr2, hsr]⟩
      simp [runOps, hrun]

/-- C2, counterexample: the claim fails as stated.  From the valid start
state (3 visible rows, store of 10), nine `scroll(+1)` calls reach
`top_row = 7`; a resize that grows the viewport to 20 rows leaves
`top_row = 7`, violating `top_row ≤ max(0, length - visible_rows) = 0`,
and one further `scroll(+1)` drives the selected absolute index to 10 ≥
length — the `apply_color_type` unwrap panics (`none`). -/
theorem claimC2_counterexample :
    validM 10 ⟨3, 0, 0, 0⟩ ∧
    runOps 10 (List.replicate 9 (MenuOp.scroll 1) ++ [MenuOp.resize 20])
      ⟨3, 0, 0, 0⟩ = some ⟨20, 0, 7, 2⟩ ∧
    ¬((⟨20, 0, 7, 2⟩ : MenuSt).topRow ≤
        max 0 ((10 : Int) - ((⟨20, 0, 7, 2⟩ : MenuSt).nRow -
          (⟨20, 0, 7, 2⟩ : MenuSt).startRow))) ∧
    runOps 10 (List.replicate 9 (MenuOp.scroll 1) ++
      [MenuOp.resize 20, MenuOp.scroll 1]) ⟨3, 0, 0, 0⟩ = none := by
  refine ⟨by decide, by decide, ?_, by decide⟩
  simp only [le_max_iff]
  decide

/-- C2 (amended): for every menu over a non-empty store, after any
sequence of scroll and resize calls in which no resize grows the viewport
(and every resize keeps at least one content row), no step panics, the
absolute index `top_row + (selected - start_row)` stays a valid store
index, and `top_row` stays within `[0, max(0, length - visible_rows)]`
(`visible_rows = n_row - start_row`).  A viewport-growing resize breaks
the `top_row` bound, after which a further scroll can push the absolute
index out of range (see the counterexample). -/
theorem claimC2_amended_windowing (L : Nat) (ops : List MenuOp) (st : MenuSt)
    (hL : 1 ≤ L) (hv : validM L st)
    (hng : noGrowOps st.startRow st.nRow ops = true) :
    ∃ st2, runOps L ops st = some st2 ∧
      0 ≤ st2.topRow + (st2.selected - st2.startRow) ∧
      st2.topRow + (st2.selected - st2.startRow) ≤ (L : Int) - 1 ∧
      0 ≤ st2.topRow ∧
      st2.topRow ≤ max 0 ((L : Int) - (st2.nRow - st2.startRow)) := by
  obtain ⟨st2, hrun, hv2, _⟩ := runOps_valid L hL ops st hv hng
  obtain ⟨g1, g2, g3, g4, g5, g6, g7⟩ := hv2
  refine ⟨st2, hrun, by omega, by omega, g5, ?_⟩
  rw [le_max_iff]
  omega

/-- Witness for C2 (amended) at a concrete run: three rows over a store
of five, one scroll down, a shrink to two rows, one scroll up. -/
theorem claimC2_witness :
    ∃ st2, runOps 5 [MenuOp.scroll 1, MenuOp.resize 2, MenuOp.scroll (-1)]
        ⟨3, 0, 0, 0⟩ = some st2 ∧
      0 ≤ st2.topRow + (st2.selected - st2.startRow) ∧
      st2.topRow + (st2.selected - st2.startRow) ≤ (5 : Int) - 1 ∧
      0 ≤ st2.topRow ∧
      st2.topRow ≤ max 0 ((5 : Int) - (st2.nRow - st2.startRow)) :=
  claimC2_amended_windowing 5 [MenuOp.scroll 1, MenuOp.resize 2, MenuOp.scroll (-1)]
    ⟨3, 0, 0, 0⟩ (by decide) (by decide) (by decide)

/-- With a list longer than the viewport and no header, the state
`top_row = L - n_row`, `selected = n_row - 1` is a fixed point of
`scroll(+1)`. -/
theorem menuScroll_fixpoint_bottom (L : Nat) (st : MenuSt) (hv : validM L st)
    (hs : st.startRow = 0) (hlong : st.nRow < (L : Int))
    (ht : st.topRow = (L : Int) - st.nRow) (hsel : st.selected = st.nRow - 1) :
    menuScroll L 1 st = some st := by
  have hL : 1 ≤ L := by
    obtain ⟨h1, h2, _⟩ := hv
    omega
  obtain ⟨hsome, _, _, _⟩ := menuScroll_some_valid L 1 st hL hv
  rw [hsome]
  obtain ⟨nr, sr, tr, sl⟩ := st
  simp only [] at hs hlong ht hsel
  simp only [validM] at hv
  obtain ⟨h1, h2, h3, h4, h5, h6, h7⟩ := hv
  simp only [scrollCore, scrollClamp, absBottom]
  split_ifs <;> simp only [Option.some.injEq, MenuSt.mk.injEq, true_and, and_true] <;>
    omega

/-- For every menu (any `start_row`) over a non-empty store, the state
`top_row = 0`, `selected = start_row` is a fixed point of `scroll(-1)`. -/
theorem menuScroll_fixpoint_top (L : Nat) (st : MenuSt) (hL : 1 ≤ L)
    (hv : validM L st)
    (ht : st.topRow = 0) (hsel : st.selected = st.startRow) :
    menuScroll L (-1) st = some st := by
  obtain ⟨hsome, _, _, _⟩ := menuScroll_some_valid L (-1) st hL hv
  rw [hsome]
  obtain ⟨nr, sr, tr, sl⟩ := st
  simp only [] at ht hsel
  simp only [validM] at hv
  obtain ⟨h1, h2, h3, h4, h5, h6, h7⟩ := hv
  simp only [scrollCore, scrollClamp, absBottom]
  split_ifs <;> simp only [Option.some.injEq, MenuSt.mk.injEq, true_and, and_true] <;>
    omega

/-- Away from the bottom fixed point, `scroll(+1)` increases
`top_row + selected` by exactly one and stays valid. -/
theorem menuScroll_progress_down (L : Nat) (st : MenuSt) (hv : validM L st)
    (hs : st.startRow = 0) (hlong : st.nRow < (L : Int))
    (hgap : st.topRow + st.selected < (L : Int) - 1) :
    validM L (scrollCore L 1 st).1 ∧
    (scrollCore L 1 st).1.nRow = st.nRow ∧
    (scrollCore L 1 st).1.startRow = 0 ∧
    (scrollCore L 1 st).1.topRow + (scrollCore L 1 st).1.selected =
      st.topRow + st.selected + 1 := by
  obtain ⟨e1, e2, _, hvq⟩ := scrollCore_spec L 1 st hv
  refine ⟨hvq, e1, by rw [e2, hs], ?_⟩
  obtain ⟨nr, sr, tr, sl⟩ := st
  simp only [] at hs hlong hgap
  simp only [validM] at hv
  obtain ⟨h1, h2, h3, h4, h5, h6, h7⟩ := hv
  simp only [scrollCore, scrollClamp, absBottom]
  split_ifs <;> simp only [true_and, and_true] <;> omega

/-- Away from the top fixed point, `scroll(-1)` decreases
`top_row + selected` by exactly one and stays valid, for every
`start_row`. -/
theorem menuScroll_progress_up (L : Nat) (st : MenuSt) (hv : validM L st)
    (hgap : 0 < st.topRow + st.selected - st.startRow) :
    validM L (scrollCore L (-1) st).1 ∧
    (scrollCore L (-1) st).1.nRow = st.nRow ∧
    (scrollCore L (-1) st).1.startRow = st.startRow ∧
    (scrollCore L (-1) st).1.topRow + (scrollCore L (-1) st).1.selected =
      st.topRow + st.selected - 1 := by
  obtain ⟨e1, e2, _, hvq⟩ := scrollCore_spec L (-1) st hv
  refine ⟨hvq, e1, e2, ?_⟩
  obtain ⟨nr, sr, tr, sl⟩ := st
  simp only [] at hgap
  simp only [validM] at hv
  obtain ⟨h1, h2, h3, h4, h5, h6, h7⟩ := hv
  simp only [scrollCore, scrollClamp, absBottom]
  split_ifs <;> simp only [true_and, and_true] <;> omega

theorem iterScroll_succ (L : Nat) (lines : Int) (k : Nat) (st : MenuSt) :
    iterScroll L lines (k + 1) st = (menuScroll L lines st).bind (iterScroll L lines k) :=
  rfl

/-- Iterating `scroll(+1)` at least `L - 1 - top_row - selected` times
reaches the bottom fixed point. -/
theorem iterScroll_down_reaches (L : Nat) (nR : Int) (hlong : nR < (L : Int)) :
    ∀ (k : Nat) (st : MenuSt), st.nRow = nR → st.startRow = 0 → validM L st →
      (L : Int) - 1 - st.topRow - st.selected ≤ (k : Int) →
      iterScroll L 1 k st = some ⟨nR, 0, (L : Int) - nR, nR - 1⟩ := by
  intro k
  induction k with
  | zero =>
    intro st hnr hsr hv hgap
    obtain ⟨h1, h2, h3, h4, h5, h6, h7⟩ := hv
    obtain ⟨nr, sr, tr, sl⟩ := st
    simp only [] at hnr hsr hgap h1 h2 h3 h4 h5 h6 h7
    simp only [iterScroll, Option.some.injEq, MenuSt.mk.injEq]
    omega
  | succ n ih =>
    intro st hnr hsr hv hgap
    rw [iterScroll_succ]
    by_cases hfix : st.topRow + st.selected = (L : Int) - 1
    · have hfields : st.topRow = (L : Int) - st.nRow ∧ st.selected = st.nRow - 1 := by
        obtain ⟨h1, h2, h3, h4, h5, h6, h7⟩ := hv
        omega
      rw [menuScroll_fixpoint_bottom L st hv hsr (hnr ▸ hlong) hfields.1 hfields.2]
      exact ih st hnr hsr hv (by omega)
    · have hgap2 : st.topRow + st.selected < (L : Int) - 1 := by
        obtain ⟨h1, h2, h3, h4, h5, h6, h7⟩ := hv
        omega
      have hL : 1 ≤ L := by
        obtain ⟨h1, h2, _⟩ := hv
        omega
      obtain ⟨hsome, _, _, _⟩ := menuScroll_some_valid L 1 st hL hv
      obtain ⟨hv2, hnr2, hsr2, hsum⟩ :=
        menuScroll_progress_down L st hv hsr (hnr ▸ hlong) hgap2
      rw [hsome]
      exact ih (scrollCore L 1 st).1 (hnr ▸ hnr2) hsr2 hv2 (by omega)

/-- Iterating `scroll(-1)` at least `top_row + selected - start_row`
times reaches the top fixed point, for every `start_row`. -/
theorem iterScroll_up_reaches (L : Nat) (nR sR : Int) :
    ∀ (k : Nat) (st : MenuSt), st.nRow = nR → st.startRow = sR → validM L st →
      st.topRow + st.selected - sR ≤ (k : Int) →
      iterScroll L (-1) k st = some ⟨nR, sR, 0, sR⟩ := by
  intro k
  induction k with
  | zero =>
    intro st hnr hsr hv hgap
    obtain ⟨h1, h2, h3, h4, h5, h6, h7⟩ := hv
    obtain ⟨nr, sr, tr, sl⟩ := st
    simp only [] at hnr hsr hgap h1 h2 h3 h4 h5 h6 h7
    simp only [iterScroll, Option.some.injEq, MenuSt.mk.injEq]
    omega
  | succ n ih =>
    intro st hnr hsr hv hgap
    rw [iterScroll_succ]
    have hL : 1 ≤ L := by
      obtain ⟨h1, h2, h3, h4, h5, h6, h7⟩ := hv
      omega
    by_cases hfix : st.topRow + st.selected - st.startRow = 0
    · have hfields : st.topRow = 0 ∧ st.selected = st.startRow := by
        obtain ⟨h1, h2, h3, h4, h5, h6, h7⟩ := hv
        omega
      rw [menuScroll_fixpoint_top L st hL hv hfields.1 hfields.2]
      exact ih st hnr hsr hv (by omega)
    · have hgap2 : 0 < st.topRow + st.selected - st.startRow := by
        obtain ⟨h1, h2, h3, h4, h5, h6, h7⟩ := hv
        omega
      obtain ⟨hsome, _, _, _⟩ := menuScroll_some_valid L (-1) st hL hv
      obtain ⟨hv2, hnr2, hsr2, hsum⟩ := menuScroll_progress_up L st hv hgap2
      rw [hsome]
      exact ih (scrollCore L (-1) st).1 (hnr ▸ hnr2) (hsr ▸ hsr2) hv2 (by omega)

/-- C3, counterexample: the claim fails for menus with a header.  The
valid state `n_row = 5`, `start_row = 2`, `top_row = 3`, `selected = 4`
over a store of 6 — reachable by a shrinking resize from 9 panel rows —
is a fixed point of `scroll(+1)` (so repeated `scroll(+1)` reaches and
stays exactly there), yet it is not the claimed stable state under either
reading of `visible_rows`: with `visible_rows = n_row = 5` the claimed
`top_row` is `6 - 5 = 1 ≠ 3`, and with `visible_rows = n_row - start_row
= 3` the claimed `selected` is `3 - 1 = 2 ≠ 4`. -/
theorem claimC3_counterexample :
    validM 6 ⟨9, 2, 0, 7⟩ ∧
    menuResize 5 ⟨9, 2, 0, 7⟩ = ⟨5, 2, 3, 4⟩ ∧
    validM 6 ⟨5, 2, 3, 4⟩ ∧
    menuScroll 6 1 ⟨5, 2, 3, 4⟩ = some ⟨5, 2, 3, 4⟩ ∧
    iterScroll 6 1 6 ⟨5, 2, 3, 4⟩ = some ⟨5, 2, 3, 4⟩ ∧
    ¬((⟨5, 2, 3, 4⟩ : MenuSt).selected = (⟨5, 2, 3, 4⟩ : MenuSt).nRow - 1 ∧
      (⟨5, 2, 3, 4⟩ : MenuSt).topRow = (6 : Int) - (⟨5, 2, 3, 4⟩ : MenuSt).nRow) ∧
    ¬((⟨5, 2, 3, 4⟩ : MenuSt).selected =
        (⟨5, 2, 3, 4⟩ : MenuSt).nRow - (⟨5, 2, 3, 4⟩ : MenuSt).startRow - 1 ∧
      (⟨5, 2, 3, 4⟩ : MenuSt).topRow =
        (6 : Int) - ((⟨5, 2, 3, 4⟩ : MenuSt).nRow -
          (⟨5, 2, 3, 4⟩ : MenuSt).startRow)) := by
  decide

/-- C3 (amended): over a list longer than the viewport, for a header-less
menu (`start_row = 0`) — the shape of the ui.rs menus and of the menu.rs
tests — `L` repetitions of `scroll(+1)` from any valid state reach the
state `selected = visible_rows - 1`, `top_row = length - visible_rows`
(`visible_rows = n_row`), which `scroll(+1)` maps to itself; and for
every menu, any `start_row`, `L` repetitions of `scroll(-1)` reach
`top_row = 0`, `selected = start_row`, which `scroll(-1)` maps to itself.
With a header the `scroll(+1)` direction stabilizes at start-dependent
states instead (see the counterexample). -/
theorem claimC3_amended_stabilizes (L : Nat) (st : MenuSt)
    (hlong : st.nRow < (L : Int)) (hv : validM L st) :
    (st.startRow = 0 →
      iterScroll L 1 L st = some ⟨st.nRow, 0, (L : Int) - st.nRow, st.nRow - 1⟩ ∧
      menuScroll L 1 ⟨st.nRow, 0, (L : Int) - st.nRow, st.nRow - 1⟩ =
        some ⟨st.nRow, 0, (L : Int) - st.nRow, st.nRow - 1⟩) ∧
    iterScroll L (-1) L st = some ⟨st.nRow, st.startRow, 0, st.startRow⟩ ∧
    menuScroll L (-1) ⟨st.nRow, st.startRow, 0, st.startRow⟩ =
      some ⟨st.nRow, st.startRow, 0, st.startRow⟩ := by
  have hL : 1 ≤ L := by
    obtain ⟨h1, h2, h3, h4, h5, h6, h7⟩ := hv
    omega
  have hvt : validM L (⟨st.nRow, st.startRow, 0, st.startRow⟩ : MenuSt) := by
    obtain ⟨h1, h2, h3, h4, h5, h6, h7⟩ := hv
    simp only [validM]
    omega
  have hgap2 : st.topRow + st.selected - st.startRow ≤ (L : Int) := by
    obtain ⟨h1, h2, h3, h4, h5, h6, h7⟩ := hv
    omega
  refine ⟨fun hs => ?_, ?_, ?_⟩
  · have hvb : validM L (⟨st.nRow, 0, (L : Int) - st.nRow, st.nRow - 1⟩ : MenuSt) := by
      obtain ⟨h1, h2, h3, h4, h5, h6, h7⟩ := hv
      simp only [validM] at *
      omega
    have hgap1 : (L : Int) - 1 - st.topRow - st.selected ≤ (L : Int) := by
      obtain ⟨h1, h2, h3, h4, h5, h6, h7⟩ := hv
      omega
    exact ⟨iterScroll_down_reaches L st.nRow hlong L st rfl hs hv hgap1,
      menuScroll_fixpoint_bottom L _ hvb rfl hlong rfl rfl⟩
  · exact iterScroll_up_reaches L st.nRow st.startRow L st rfl rfl hv hgap2
  · exact menuScroll_fixpoint_top L _ hL hvt rfl rfl

/-- Witness for C3 (amended): the header-less `scroll(+1)` stabilization
with three visible rows over a store of five, and the `scroll(-1)`
stabilization at `selected = start_row` on a header'd menu
(`start_row = 2`) over a store of six. -/
theorem claimC3_witness :
    (iterScroll 5 1 5 ⟨3, 0, 0, 0⟩ = some ⟨3, 0, 2, 2⟩ ∧
      menuScroll 5 1 ⟨3, 0, 2, 2⟩ = some ⟨3, 0, 2, 2⟩) ∧
    iterScroll 6 (-1) 6 ⟨5, 2, 3, 4⟩ = some ⟨5, 2, 0, 2⟩ ∧
    menuScroll 6 (-1) ⟨5, 2, 0, 2⟩ = some ⟨5, 2, 0, 2⟩ := by
  have h1 := claimC3_amended_stabilizes 5 ⟨3, 0, 0, 0⟩ (by decide) (by decide)
  have h2 := claimC3_amended_stabilizes 6 ⟨5, 2, 3, 4⟩ (by decide) (by decide)
  exact ⟨h1.1 rfl, h2.2.1, h2.2.2⟩

/-- C1: `replace(index, t)` succeeds, storing `t` at `index`, exactly when
`1 ≤ index < length`, and returns the `Invalid index` error for every
other index; in particular index 0 always fails, also on a non-empty
store. -/
theorem claimC1_replace_index_window {T : Type} (data : List T) (index : Nat) (t : T) :
    (1 ≤ index ∧ index < data.length →
      lockVecReplace data index t = .ok (data.set index t)) ∧
    (¬(1 ≤ index ∧ index < data.length) →
      lockVecReplace data index t = .error "Invalid index") ∧
    lockVecReplace data 0 t = .error "Invalid index" := by
  refine ⟨fun h => ?_, fun h => ?_, ?_⟩
  · rw [lockVecReplace, if_pos (show 0 < index ∧ index < data.length from h)]
  · rw [lockVecReplace, if_neg (show ¬(0 < index ∧ index < data.length) from h)]
  · rw [lockVecReplace, if_neg (by omega : ¬(0 < 0 ∧ 0 < data.length))]

/-- Witness for C1 on the non-empty store `[10, 20, 30]`. -/
theorem claimC1_witness :
    lockVecReplace [10, 20, 30] 1 99 = .ok [10, 99, 30] ∧
    lockVecReplace [10, 20, 30] 3 99 = .error "Invalid index" ∧
    lockVecReplace [10, 20, 30] 0 99 = .error "Invalid index" :=
  ⟨(claimC1_replace_index_window [10, 20, 30] 1 99).1 (by decide),
   (claimC1_replace_index_window [10, 20, 30] 3 99).2.1 (by decide),
   (claimC1_replace_index_window [10, 20, 30] 0 99).2.2⟩

/-- C5: truncation always cuts at a full-character boundary (the byte
slice is the encoding of a whole-character prefix), and the two reference
titles truncate as the spec states. -/
theorem claimC5_truncation_boundaries :
    (∀ (s : List Char) (start len : Nat),
      substringBytes s start len = strBytes (substring s start len)) ∧
    substring "An episode with le Unicodé".data 0 25 =
      "An episode with le Unicod".data ∧
    substring "How does an episode with emoji sound? 😉".data 0 38 =
      "How does an episode with emoji sound? ".data :=
  ⟨substringBytes_eq_strBytes_substring, by decide, by decide⟩

/-- C10: `substring(start, len)` is total: its byte offsets are always a
valid slice range (no panic), the slice decodes to exactly the characters
at `start..start+len` clamped to the end, at most `len` characters come
back, and a `start` at or past the character count yields the empty
string. -/
theorem claimC10_substring_total (s : List Char) (start len : Nat) :
    substringByteStart s start ≤ substringByteEnd s start len ∧
    substringByteEnd s start len ≤ (strBytes s).length ∧
    substringBytes s start len = strBytes ((s.drop start).take len) ∧
    (substring s start len).length ≤ len ∧
    (s.length ≤ start → substring s start len = []) := by
  refine ⟨(substring_offsets_valid s start len).1,
    (substring_offsets_valid s start len).2, ?_, ?_, fun h => ?_⟩
  · rw [substringBytes_eq_strBytes_substring]
    rfl
  · simp only [substring, List.length_take]
    exact Nat.min_le_left _ _
  · simp [substring, List.drop_eq_nil_of_le h]

/-- Witness for C10 at `start` past the end of the string. -/
theorem claimC10_witness : substring "ab".data 5 3 = [] :=
  (claimC10_substring_total "ab".data 5 3).2.2.2.2 (by decide)

/-- Helper: `Iterator::position` returning `n` means the element at `n`
satisfies the predicate. -/
theorem iterPosition_spec {T : Type} (p : T → Bool) (l : List T) (n : Nat)
    (h : iterPosition p l = some n) : ∃ a, l.get? n = some a ∧ p a = true := by
  induction l generalizing n with
  | nil => simp [iterPosition] at h
  | cons a rest ih =>
    rw [iterPosition] at h
    by_cases hp : p a
    · rw [if_pos hp] at h
      obtain rfl : (0 : Nat) = n := Option.some.inj h
      exact ⟨a, rfl, hp⟩
    · rw [if_neg hp] at h
      obtain ⟨m, hm, hmn⟩ := Option.map_eq_some'.mp h
      obtain ⟨b, hb, hpb⟩ := ih m hm
      exact ⟨b, by rw [← hmn]; simpa using hb, hpb⟩

/-- C9: `id_to_index` composed with the positional copy is the identity on
IDs: when `id_to_index(id)` answers position `n`, the entity cloned from
position `n` carries exactly that ID — for podcasts and for episodes. -/
theorem claimC9_id_roundtrip (pods : List Podcast) (eps : List Episode)
    (id : Int) (n m : Nat) :
    (podIdToIndex pods id = some n →
      ∃ p, clonePodcast pods n = some p ∧ p.id = some id) ∧
    (epIdToIndex eps id = some m →
      ∃ e, cloneEpisode eps m = some e ∧ e.id = some id) := by
  constructor
  · intro h
    obtain ⟨a, ha, hp⟩ := iterPosition_spec _ _ _ h
    exact ⟨a, ha, by simpa using hp⟩
  · intro h
    obtain ⟨a, ha, hp⟩ := iterPosition_spec _ _ _ h
    exact ⟨a, ha, by simpa using hp⟩

/-- Witness for C9 on singleton stores. -/
theorem claimC9_witness :
    (∃ p, clonePodcast [⟨some 7, "t".data, "u".data, none, none, none,
        ⟨2020, 1, 1⟩, [], false⟩] 0 = some p ∧ p.id = some 7) ∧
    (∃ e, cloneEpisode [⟨some 3, some 7, "e".data, [], [], none, none, none,
        true⟩] 0 = some e ∧ e.id = some 3) :=
  ⟨(claimC9_id_roundtrip [⟨some 7, "t".data, "u".data, none, none, none,
      ⟨2020, 1, 1⟩, [], false⟩] [] 7 0 0).1 rfl,
   (claimC9_id_roundtrip [] [⟨some 3, some 7, "e".data, [], [], none, none,
      none, true⟩] 3 0 0).2 rfl⟩

/-- C6: on an empty store every menu operation is total and faultless:
the ui.rs repaint parks `selected` at the sentinel `-1` and its scroll is
a no-op at the sentinel; the ui/menu.rs scroll returns unchanged on an
empty store, and highlight/activate/deactivate find no entity, paint
nothing, change nothing, and never panic. -/
theorem claimC6_empty_store_total :
    (∀ (st : MenuSt) (lines : Int), menuScroll 0 lines st = some st) ∧
    (∀ st : MenuSt, menuActivate [] st = none) ∧
    (∀ (st : MenuSt) (active : Bool), menuHighlightSelected [] st active = none) ∧
    (∀ st : MenuSt, menuDeactivatePodcast [] st = none) ∧
    (∀ st : MenuSt, menuDeactivateEpisode [] st = none) ∧
    (∀ st : UiMenuSt, (uiUpdateItems 0 st).selected = -1) ∧
    (∀ (st : UiMenuSt) (lines : Int), st.selected = -1 →
      uiScroll 0 lines st = some st) := by
  refine ⟨fun st lines => by simp [menuScroll],
    fun st => ?_, fun st active => ?_, fun st => ?_, fun st => ?_,
    fun st => by simp [uiUpdateItems],
    fun st lines h => by simp [uiScroll, h]⟩ <;>
  · simp only [menuActivate, menuHighlightSelected, menuDeactivatePodcast,
      menuDeactivateEpisode, mapSingleByIndex]
    split_ifs <;> simp

/-- Witness for C6's sentinel-scroll conjunct. -/
theorem claimC6_witness : uiScroll 0 5 ⟨3, 0, -1⟩ = some ⟨3, 0, -1⟩ :=
  claimC6_empty_store_total.2.2.2.2.2.2 ⟨3, 0, -1⟩ 5 rfl

/-- C7, counterexample: when the store shrinks past `top_row` itself
(here `top_row = 10`, new length 5), `update_items` still moves the
selected absolute index to `length - 1 = 4`, but the resulting `selected`
is `-6`, strictly below `start_row = 0` — the claim's "never below
start_row" fails. -/
theorem claimC7_counterexample :
    (5 : Int) ≤ (⟨5, 0, 10, 0⟩ : MenuSt).topRow +
      (⟨5, 0, 10, 0⟩ : MenuSt).selected - (⟨5, 0, 10, 0⟩ : MenuSt).startRow ∧
    menuUpdateItems 5 ⟨5, 0, 10, 0⟩ = ⟨5, 0, 10, -6⟩ ∧
    (menuUpdateItems 5 ⟨5, 0, 10, 0⟩).selected <
      (⟨5, 0, 10, 0⟩ : MenuSt).startRow := by
  refine ⟨by decide, by decide, by decide⟩

/-- C7 (amended): when the store shrank so that the selected absolute
index is at or past the new length, `update_items` clamps `selected` so
that the absolute index becomes the new last valid index `length - 1`;
the resulting `selected` stays at or above `start_row` provided
`top_row ≤ length - 1` (it drops below `start_row` when the store shrank
past `top_row`, see the counterexample). -/
theorem claimC7_amended_clamp (L : Nat) (st : MenuSt) (hL : 1 ≤ L)
    (htop : 0 ≤ st.topRow)
    (hout : (L : Int) ≤ st.topRow +
      (if st.selected < st.startRow then st.startRow else st.selected) -
        st.startRow) :
    (menuUpdateItems L st).topRow + (menuUpdateItems L st).selected -
        (menuUpdateItems L st).startRow = (L : Int) - 1 ∧
    (st.topRow ≤ (L : Int) - 1 →
      st.startRow ≤ (menuUpdateItems L st).selected) := by
  obtain ⟨nr, sr, tr, sl⟩ := st
  simp only [] at htop hout
  simp only [menuUpdateItems]
  split_ifs <;> simp only [true_and, and_true] <;> constructor <;> intros <;> omega

/-- Witness for C7 (amended): store shrank to 5 with the cursor at
absolute index 6. -/
theorem claimC7_witness :
    (menuUpdateItems 5 ⟨5, 0, 2, 4⟩).topRow + (menuUpdateItems 5 ⟨5, 0, 2, 4⟩).selected -
        (menuUpdateItems 5 ⟨5, 0, 2, 4⟩).startRow = (5 : Int) - 1 ∧
    (0 : Int) ≤ (menuUpdateItems 5 ⟨5, 0, 2, 4⟩).selected := by
  have h := claimC7_amended_clamp 5 ⟨5, 0, 2, 4⟩ (by decide) (by decide) (by decide)
  exact ⟨h.1, h.2 (by decide)⟩

/-- C4, code bug: `get_title` violates its "up to length characters"
contract through unchecked `usize` subtractions.  A downloaded episode at
width 3 panics in `length - 4` before any threshold is consulted (for
every threshold assignment), and an episode whose title fills the width
panics computing the pad width `length - out.chars().count() - added_len
+ 2` in the metadata branch. -/
theorem claimC4_width_budget_bug :
    (∀ pubdateLength durationLength : Nat,
      episodeGetTitle pubdateLength durationLength
        ⟨none, none, "abc".data, [], [], none, none, some "f.mp3".data, false⟩
        3 = none) ∧
    episodeGetTitle 60 45
      ⟨none, none, List.replicate 70 'a', [], [], some ⟨2020, 1, 1⟩,
        some 12345, none, false⟩ 70 = none := by
  exact ⟨fun _ _ => rfl, by decide⟩

theorem neLookup_setSelected (m : List (Int × NewEpisode)) (id id2 : Int) (v : Bool) :
    neLookup (neSetSelected m id v) id2 =
      (neLookup m id2).map
        (fun ep => if id2 = id then { ep with selected := v } else ep) := by
  induction m with
  | nil => rfl
  | cons p rest ih =>
    obtain ⟨k, e⟩ := p
    simp only [neSetSelected, List.map_cons]
    by_cases hk : k = id
    · rw [if_pos hk]
      by_cases h2 : id2 = k
      · rw [neLookup, if_pos h2, neLookup, if_pos h2]
        simp [h2.trans hk]
      · rw [neLookup, if_neg h2, neLookup, if_neg h2]
        simpa [neSetSelected] using ih
    · rw [if_neg hk]
      by_cases h2 : id2 = k
      · have hne : ¬(id2 = id) := fun h => hk (h2.symm.trans h)
        rw [neLookup, if_pos h2, neLookup, if_pos h2]
        simp [hne]
      · rw [neLookup, if_neg h2, neLookup, if_neg h2]
        simpa [neSetSelected] using ih

theorem changeStep_isSome (order : List Int) (sel : Option Bool)
    (acc : List (Int × NewEpisode) × Bool) (x : Nat) (id : Int) :
    (neLookup (changeStep order sel acc x).1 id).isSome =
      (neLookup acc.1 id).isSome := by
  cases hgx : order[x]? with
  | none => simp [changeStep, hgx]
  | some id2 =>
    cases hlk : neLookup acc.1 id2 with
    | none => simp [changeStep, hgx, hlk]
    | some ep =>
      simp only [changeStep, List.get?_eq_getElem?, hgx, hlk, neLookup_setSelected]
      cases neLookup acc.1 id <;> simp

theorem changeFold_isSome (order : List Int) (sel : Option Bool) :
    ∀ (xs : List Nat) (acc : List (Int × NewEpisode) × Bool) (id : Int),
      (neLookup (xs.foldl (changeStep order sel) acc).1 id).isSome =
        (neLookup acc.1 id).isSome := by
  intro xs
  induction xs with
  | nil => intro acc id; rfl
  | cons x xs ih =>
    intro acc id
    rw [List.foldl_cons, ih, changeStep_isSome]

theorem changeFold_keeps_value (order : List Int) (v : Bool) :
    ∀ (xs : List Nat) (acc : List (Int × NewEpisode) × Bool) (id : Int),
      (neLookup acc.1 id).map NewEpisode.selected = some v →
      (neLookup (xs.foldl (changeStep order (some v)) acc).1 id).map
        NewEpisode.selected = some v := by
  intro xs
  induction xs with
  | nil => exact fun acc id h => h
  | cons x xs ih =>
    intro acc id h
    rw [List.foldl_cons]
    refine ih _ id ?_
    cases hgx : order[x]? with
    | none => simpa [changeStep, hgx] using h
    | some id2 =>
      cases hlk : neLookup acc.1 id2 with
      | none => simpa [changeStep, hgx, hlk] using h
      | some ep =>
        simp only [changeStep, List.get?_eq_getElem?, hgx, hlk, neLookup_setSelected]
        by_cases hid : id = id2
        · cases hv : neLookup acc.1 id with
          | none => rw [hv] at h; simp at h
          | some ep2 => simp [hv, hid]
        · cases hv : neLookup acc.1 id with
          | none => rw [hv] at h; simp at h
          | some ep2 =>
            rw [hv] at h
            simp only [Option.map_some'] at h ⊢
            simp [hid, h]

theorem changeFold_hits (order : List Int) (v : Bool) :
    ∀ (xs : List Nat) (acc : List (Int × NewEpisode) × Bool) (id : Int),
      (∃ i ∈ xs, order.get? i = some id) →
      (neLookup acc.1 id).isSome = true →
      (neLookup (xs.foldl (changeStep order (some v)) acc).1 id).map
        NewEpisode.selected = some v := by
  intro xs
  induction xs with
  | nil =>
    rintro acc id ⟨i, hi, _⟩ _
    simp at hi
  | cons x xs ih =>
    rintro acc id ⟨i, hi, hgi⟩ hsome
    rw [List.foldl_cons]
    rcases List.mem_cons.mp hi with rfl | hmem
    · obtain ⟨ep, hep⟩ := Option.isSome_iff_exists.mp hsome
      rw [List.get?_eq_getElem?] at hgi
      have hstep : (neLookup (changeStep order (some v) acc i).1 id).map
          NewEpisode.selected = some v := by
        simp [changeStep, hgi, hep, neLookup_setSelected]
      exact changeFold_keeps_value order v xs _ id hstep
    · refine ih _ id ⟨i, hmem, hgi⟩ ?_
      rw [changeStep_isSome]
      exact hsome

/-- After `change_item_selections` over every position with an explicit
selection value, every entity reachable through the order sequence holds
that value. -/
theorem changeItemSelections_all (order : List Int) (m : List (Int × NewEpisode))
    (v : Bool) (hinv : ∀ id ∈ order, (neLookup m id).isSome = true) :
    ∀ id ∈ order,
      (neLookup (changeItemSelections order (List.range order.length)
        (some v) m).1 id).map NewEpisode.selected = some v := by
  intro id hid
  obtain ⟨n, hn⟩ := List.mem_iff_get?.mp hid
  have hlt : n < order.length := (List.get?_eq_some.mp hn).1
  exact changeFold_hits order v (List.range order.length) (m, false) id
    ⟨n, List.mem_range.mpr hlt, hn⟩ (hinv id hid)

/-- C8: `select_all_items` is a unanimous toggle.  With the store
invariant (every ID in the order sequence is mapped), if every entity is
already flagged it clears the flag on all of them; if at least one is
unflagged it sets the flag on all of them; and from a partially selected
state, one call selects all and a second call unselects all. -/
theorem claimC8_select_all_toggle (order : List Int)
    (m : List (Int × NewEpisode))
    (hinv : ∀ id ∈ order, (neLookup m id).isSome = true) :
    (allSelectedFlag order m = true → ∀ id ∈ order,
      (neLookup (selectAllItems order m).1 id).map NewEpisode.selected =
        some false) ∧
    (allSelectedFlag order m = false → ∀ id ∈ order,
      (neLookup (selectAllItems order m).1 id).map NewEpisode.selected =
        some true) ∧
    (allSelectedFlag order m = false → ∀ id ∈ order,
      (neLookup (selectAllItems order (selectAllItems order m).1).1 id).map
        NewEpisode.selected = some false) := by
  have hinv2 : ∀ id ∈ order,
      (neLookup (selectAllItems order m).1 id).isSome = true := by
    intro id hid
    rw [selectAllItems, changeItemSelections, changeFold_isSome]
    exact hinv id hid
  refine ⟨fun hall => ?_, fun hnot => ?_, fun hnot => ?_⟩
  · have h := changeItemSelections_all order m false hinv
    rw [selectAllItems, hall]
    simpa using h
  · have h := changeItemSelections_all order m true hinv
    rw [selectAllItems, hnot]
    simpa using h
  · have hall1 : ∀ id ∈ order,
        (neLookup (selectAllItems order m).1 id).map NewEpisode.selected =
          some true := by
      have h := changeItemSelections_all order m true hinv
      rw [selectAllItems, hnot]
      simpa using h
    have hflag : allSelectedFlag order (selectAllItems order m).1 = true := by
      rw [allSelectedFlag]
      refine List.all_eq_true.mpr ?_
      intro b hb
      obtain ⟨id, hid, hfb⟩ := List.mem_filterMap.mp hb
      rw [hall1 id hid] at hfb
      simpa using hfb.symm
    have h := changeItemSelections_all order (selectAllItems order m).1 false hinv2
    rw [selectAllItems, hflag]
    simpa using h

/-- Witness for C8 on a two-entity store with one entity unselected. -/
theorem claimC8_witness :
    ((neLookup (selectAllItems [1, 2]
        [(1, ⟨"a".data, true⟩), (2, ⟨"b".data, false⟩)]).1 1).map
      NewEpisode.selected = some true) ∧
    ((neLookup (selectAllItems [1, 2] (selectAllItems [1, 2]
        [(1, ⟨"a".data, true⟩), (2, ⟨"b".data, false⟩)]).1).1 2).map
      NewEpisode.selected = some false) := by
  have h := claimC8_select_all_toggle [1, 2]
    [(1, ⟨"a".data, true⟩), (2, ⟨"b".data, false⟩)] (by decide)
  exact ⟨h.2.1 (by decide) 1 (by decide), h.2.2 (by decide) 2 (by decide)⟩

end Shellcaster
